import Mathlib

/-!
Verification of the smooth-scroll program: wire protocol framing
(KakSender.send_cmd / _get_length_bytes), the two pacing algorithms
(fixed-speed `main` loop and `inertial_scroll`) and the dispatcher
(`main`).  Bytes are modelled as natural numbers below 256 in lists,
machine integers as Int/Nat, Python floats as exact rationals, and a
Python ZeroDivisionError as an error value carried next to the list of
commands already sent.
-/

namespace SmoothScroll

/-! ### Wire protocol: send_cmd and _get_length_bytes -/

/-- Model of `n.to_bytes(4, sys.byteorder)`: the four bytes of `n`, least significant
first (native byte order modelled as little-endian). -/
def toBytes4 (n : Nat) : List Nat :=
  [n % 256, n / 256 % 256, n / 256 ^ 2 % 256, n / 256 ^ 3 % 256]

/-- Read back a 4-byte little-endian unsigned integer. -/
def fromBytes4 : List Nat → Nat
  | b0 :: b1 :: b2 :: b3 :: _ => b0 + 256 * b1 + 256 ^ 2 * b2 + 256 ^ 3 * b3
  | _ => 0

/-- Model of the length-bytes helper of KakSender: `int.to_bytes(4, ...)` raises
OverflowError when the value does not fit in four bytes, hence `Option`. -/
def get_length_bytes (n : Nat) : Option (List Nat) :=
  if n < 2 ^ 32 then some (toBytes4 n) else none

/-- The framed message built by `KakSender.send_cmd` from the UTF-8 bytes
`b_cmd` of the command: magic byte 2, total length, then the content
(command length followed by the command bytes). -/
def send_cmd_message (b_cmd : List Nat) : Option (List Nat) :=
  match get_length_bytes b_cmd.length with
  | none => none
  | some lb =>
    let b_content := lb ++ b_cmd
    match get_length_bytes (b_content.length + 5) with
    | none => none
    | some tb => some ((2 :: tb) ++ b_content)

/-- Parse a framed message back: check the magic byte, that the recorded
total length equals the whole message's length and that the recorded
command length equals the length of the trailing command bytes; return
those command bytes. -/
def decode_message (msg : List Nat) : Option (List Nat) :=
  match msg with
  | [] => none
  | magic :: rest =>
    if magic = 2 ∧ 8 ≤ rest.length ∧
        fromBytes4 (rest.take 4) = msg.length ∧
        fromBytes4 ((rest.drop 4).take 4) = (rest.drop 8).length
    then some (rest.drop 8) else none

/-- Result of `send_cmd`, namely `sock.send(b_message) == len(b_message)`: the result
of one send, given how many bytes the socket accepted. -/
def send_cmd_result (b_cmd : List Nat) (accepted : Nat) : Option Bool :=
  (send_cmd_message b_cmd).map (fun msg => accepted == msg.length)

lemma fromBytes4_toBytes4 (n : Nat) (h : n < 2 ^ 32) :
    fromBytes4 (toBytes4 n) = n := by
  simp only [toBytes4, fromBytes4]
  omega

/-- C1. The message built by `send_cmd` is the magic byte 2, the four
little-endian bytes of `content_length + 5`, the four bytes of the
command's byte length, then the command bytes; the recorded total length
equals `content_length + 5`; and decoding the message recovers exactly the
command bytes. -/
theorem c1_wire_roundtrip (b_cmd : List Nat) (h : b_cmd.length + 9 < 2 ^ 32) :
    send_cmd_message b_cmd =
      some ((2 :: toBytes4 (b_cmd.length + 9)) ++ (toBytes4 b_cmd.length ++ b_cmd)) ∧
    b_cmd.length + 9 = (toBytes4 b_cmd.length ++ b_cmd).length + 5 ∧
    decode_message ((2 :: toBytes4 (b_cmd.length + 9)) ++ (toBytes4 b_cmd.length ++ b_cmd)) =
      some b_cmd := by
  have hlen : b_cmd.length < 2 ^ 32 := by omega
  have hcontent : (toBytes4 b_cmd.length ++ b_cmd).length = b_cmd.length + 4 := by
    simp [toBytes4]
  refine ⟨?_, ?_, ?_⟩
  · simp only [send_cmd_message, get_length_bytes, hlen, if_pos, hcontent]
    have h9 : b_cmd.length + 4 + 5 = b_cmd.length + 9 := by omega
    rw [h9, if_pos h]
  · omega
  · simp only [decode_message, toBytes4, List.cons_append, List.append_assoc]
    rw [if_pos]
    · simp
    · refine ⟨trivial, ?_, ?_, ?_⟩
      · simp
      · simp only [List.take, fromBytes4, List.length, List.length_append]
        omega
      · simp only [List.drop, List.take, fromBytes4]
        simp
        omega

/-- Witness for C1 at the two-byte command `[104, 105]`. -/
theorem c1_wire_roundtrip_witness :
    ([104, 105] : List Nat).length + 9 < 2 ^ 32 ∧
    (send_cmd_message [104, 105] =
      some ((2 :: toBytes4 (([104, 105] : List Nat).length + 9)) ++
        (toBytes4 ([104, 105] : List Nat).length ++ [104, 105])) ∧
    ([104, 105] : List Nat).length + 9 =
      (toBytes4 ([104, 105] : List Nat).length ++ [104, 105]).length + 5 ∧
    decode_message ((2 :: toBytes4 (([104, 105] : List Nat).length + 9)) ++
        (toBytes4 ([104, 105] : List Nat).length ++ [104, 105])) = some [104, 105]) :=
  ⟨by norm_num, c1_wire_roundtrip [104, 105] (by norm_num)⟩

/-- C9. For a command whose message was built, the send result is
`true` exactly when the socket accepted the full message length, and a
short (or long) write yields `false`. -/
theorem c9_send_result (b_cmd : List Nat) (accepted : Nat) (msg : List Nat)
    (h : send_cmd_message b_cmd = some msg) :
    (send_cmd_result b_cmd accepted = some true ↔ accepted = msg.length) ∧
    (accepted ≠ msg.length → send_cmd_result b_cmd accepted = some false) := by
  constructor
  · simp [send_cmd_result, h]
  · intro hne
    simp [send_cmd_result, h, hne]

/-- Witness for C9: the message for `[104, 105]` has 11 bytes; accepting 11
bytes reports success, accepting 10 reports failure. -/
theorem c9_send_result_witness :
    ((send_cmd_result [104, 105] 11 = some true ↔
        11 = ([2, 11, 0, 0, 0, 2, 0, 0, 0, 104, 105] : List Nat).length) ∧
      (11 ≠ ([2, 11, 0, 0, 0, 2, 0, 0, 0, 104, 105] : List Nat).length →
        send_cmd_result [104, 105] 11 = some false)) ∧
    send_cmd_result [104, 105] 10 = some false :=
  ⟨c9_send_result [104, 105] 11 [2, 11, 0, 0, 0, 2, 0, 0, 0, 104, 105] (by decide),
    (c9_send_result [104, 105] 10 [2, 11, 0, 0, 0, 2, 0, 0, 0, 104, 105]
      (by decide)).2 (by decide)⟩

/-! ### Scroll steps and pacing -/

/-- One remote scroll tick: the signed step passed to `scroll_once` and the
hold duration (seconds, exact rational) it is paced with. -/
structure Event where
  step : Int
  hold : ℚ
deriving DecidableEq

/-- Model of `scroll_once`: it sends one step and pads its wall-clock time up to the
given duration; modelled as the emitted event. -/
def scroll_once (step : Int) (dur : ℚ) : Event := ⟨step, dur⟩

/-- The key sequence string built inside `scroll_once`. -/
def scroll_keys (step : Int) : String :=
  let speed := step.natAbs
  if 0 < step then toString speed ++ "j" ++ toString speed ++ "vj"
  else toString speed ++ "k" ++ toString speed ++ "vk"

/-- Model of `sum(1. / x for x in range(2, n + 1))`, computed exactly. -/
def inv_sum : Nat → ℚ
  | 0 => 0
  | n + 1 => inv_sum n + (if 2 ≤ n + 1 then (1 : ℚ) / (n + 1) else 0)

/-- The initial velocity computed by `inertial_scroll`:
`n_lines * sum(1/x for x in range(2, n_lines+1)) / ((n_lines - 1) * duration)`. -/
def initial_velocity (n : Nat) (d : ℚ) : ℚ :=
  (n : ℚ) * inv_sum n / (((n : ℚ) - 1) * d)

/-- The velocity in force at 0-indexed loop iteration `k` of
`inertial_scroll`: the initial velocity decremented `k` times by
`d_velocity = velocity / n_lines`. -/
def velocity_at (n : Nat) (d : ℚ) (k : Nat) : ℚ :=
  initial_velocity n d - k * (initial_velocity n d / n)

/-- The hold duration of 0-indexed step `k`:
`1 / velocity * (i < n_lines - 1)`. -/
def inertial_hold (n : Nat) (d : ℚ) (k : Nat) : ℚ :=
  1 / velocity_at n d k * (if k < n - 1 then 1 else 0)

/-- The loop of `inertial_scroll`: `rem` iterations remain, `i` is the
current index, `v` the current velocity.  Computing `1 / velocity` with
`velocity = 0` raises ZeroDivisionError, reported after the events already
sent. -/
def inertial_loop (step : Int) (n : Nat) (dv : ℚ) :
    Nat → Nat → ℚ → List Event × Option String
  | 0, _, _ => ([], none)
  | rem + 1, i, v =>
    if v = 0 then ([], some "ZeroDivisionError")
    else
      let p := inertial_loop step n dv rem (i + 1) (v - dv)
      (scroll_once step (1 / v * (if i < n - 1 then 1 else 0)) :: p.1, p.2)

/-- Model of `inertial_scroll(sender, target, duration)`: the list of events it
sends and the Python error it raises, if any.  The two divisions outside
the loop are `... / ((n_lines - 1) * duration)` and
`velocity / n_lines`. -/
def inertial_scroll (target : Int) (duration : ℚ) : List Event × Option String :=
  let n := target.natAbs
  let step : Int := if 0 < target then 1 else -1
  if ((n : ℚ) - 1) * duration = 0 then ([], some "ZeroDivisionError")
  else if (n : ℚ) = 0 then ([], some "ZeroDivisionError")
  else inertial_loop step n (initial_velocity n duration / n) n 0 (initial_velocity n duration)

/-! ### Dispatcher: main -/

/-- The environment values `main` reads once at start. -/
structure Env where
  cursor_line : Int
  line_count : Int
  window_height : Int
  count_raw : Int
deriving DecidableEq

/-- The positional arguments of one invocation: `amount` (fraction of a
screen), `duration_ms` (milliseconds), `speed` (lines per tick). -/
structure Args where
  amount : ℚ
  duration_ms : ℚ
  speed : Int
deriving DecidableEq

/-- Python `int()` applied to a real value: truncation toward zero. -/
def pyInt (q : ℚ) : Int := if 0 ≤ q then ⌊q⌋ else ⌈q⌉

/-- Python `round()` to the nearest integer, ties to even; this follows
the wording of the specification ("rounding to the nearest integer"),
for comparison against the truncation the code performs. -/
def pyRound (q : ℚ) : Int :=
  if q - ⌊q⌋ < 1 / 2 then ⌊q⌋
  else if 1 / 2 < q - ⌊q⌋ then ⌊q⌋ + 1
  else if ⌊q⌋ % 2 = 0 then ⌊q⌋ else ⌊q⌋ + 1

/-- Model of `maxscroll = line_count - cursor_line if amount > 0 else cursor_line - 1`. -/
def maxscroll_of (env : Env) (amount : ℚ) : Int :=
  if 0 < amount then env.line_count - env.cursor_line else env.cursor_line - 1

/-- The product `count * abs(amount) * (window_height - 2)` with
`count = max(1, kak_count)`. -/
def scroll_product (env : Env) (amount : ℚ) : ℚ :=
  ((max 1 env.count_raw : Int) : ℚ) * |amount| * ((env.window_height : ℚ) - 2)

/-- Model of `n_lines = min(int(count * abs(amount) * (window_height - 2)), maxscroll)`. -/
def n_lines_of (env : Env) (amount : ℚ) : Int :=
  min (pyInt (scroll_product env amount)) (maxscroll_of env amount)

/-- The same quantity as the specification words it, with rounding to the
nearest integer in place of the code's truncation. -/
def n_lines_spec (env : Env) (amount : ℚ) : Int :=
  min (pyRound (scroll_product env amount)) (maxscroll_of env amount)

/-- The fixed-speed branch of `main`: `times = n_lines // max(speed, 1)`
iterations, each sending `scroll_once(sender, sign * speed, duration * (i <
times - 1))`.  Python `//` is floor division and `range` of a non-positive
bound is empty. -/
def fixed_events (n_lines sign speed : Int) (duration : ℚ) : List Event :=
  let times := Int.fdiv n_lines (max speed 1)
  (List.range times.toNat).map fun i : Nat =>
    scroll_once (sign * speed) (duration * (if (i : Int) < times - 1 then 1 else 0))

/-- Model of `main()`: the events sent to the session and the error raised, if any.
`duration` is `float(sys.argv[2]) / 1000` and the fixed-speed path is taken
when `speed > 0 or duration < 1e-3`. -/
def main_run (env : Env) (args : Args) : List Event × Option String :=
  let duration := args.duration_ms / 1000
  if maxscroll_of env args.amount = 0 then ([], none)
  else
    let nl := n_lines_of env args.amount
    let sign : Int := if 0 < args.amount then 1 else -1
    if 0 < args.speed ∨ duration < 1 / 1000 then (fixed_events nl sign args.speed duration, none)
    else inertial_scroll (sign * nl) duration

/-! ### Lemmas about the inertial schedule -/

lemma inertial_loop_eq (step : Int) (n : Nat) (dv : ℚ) :
    ∀ (rem i : Nat) (v : ℚ), (∀ k, k < rem → v - k * dv ≠ 0) →
    inertial_loop step n dv rem i v =
      ((List.range rem).map fun k =>
        scroll_once step (1 / (v - k * dv) * (if i + k < n - 1 then 1 else 0)), none) := by
  intro rem
  induction rem with
  | zero => intro i v _; simp [inertial_loop]
  | succ m ih =>
    intro i v h
    have h0 : v ≠ 0 := by
      have h' := h 0 (Nat.succ_pos m)
      simpa using h'
    have hrec : ∀ k, k < m → (v - dv) - k * dv ≠ 0 := by
      intro k hk
      have h' := h (k + 1) (by omega)
      have e : v - ((k : ℚ) + 1) * dv = v - dv - k * dv := by ring
      intro hc
      apply h'
      push_cast
      rw [e, hc]
    simp only [inertial_loop, if_neg h0]
    rw [ih (i + 1) (v - dv) hrec]
    simp only [List.range_succ_eq_map, List.map_cons, List.map_map]
    congr 1
    congr 1
    · simp [scroll_once]
    · refine List.map_congr_left ?_
      intro k _
      have hidx : i + 1 + k = i + (k + 1) := by omega
      simp only [Function.comp, scroll_once, Event.mk.injEq, hidx]
      refine ⟨trivial, ?_⟩
      have e : v - dv - (k : ℚ) * dv = v - ((k : ℚ) + 1) * dv := by ring
      rw [e]
      push_cast
      rfl

lemma inv_sum_pos (n : Nat) (h : 2 ≤ n) : 0 < inv_sum n := by
  induction n with
  | zero => omega
  | succ m ih =>
    rcases Nat.lt_or_ge m 2 with hm | hm
    · have hm1 : m = 1 := by omega
      subst hm1
      norm_num [inv_sum]
    · have hpos := ih hm
      have hnn : (0 : ℚ) ≤ (if 2 ≤ m + 1 then (1 : ℚ) / ((m : ℚ) + 1) else 0) := by
        split <;> positivity
      simp only [inv_sum]
      exact add_pos_of_pos_of_nonneg hpos hnn

lemma initial_velocity_pos (n : Nat) (d : ℚ) (h2 : 2 ≤ n) (hd : 0 < d) :
    0 < initial_velocity n d := by
  have hn : (0 : ℚ) < n := by
    have : 0 < n := by omega
    exact_mod_cast this
  have hn1 : (0 : ℚ) < (n : ℚ) - 1 := by
    have : (2 : ℚ) ≤ n := by exact_mod_cast h2
    linarith
  exact div_pos (mul_pos hn (inv_sum_pos n h2)) (mul_pos hn1 hd)

lemma velocity_at_eq (n : Nat) (d : ℚ) (k : Nat) (hn : (n : ℚ) ≠ 0) :
    velocity_at n d k = initial_velocity n d * (((n : ℚ) - k) / n) := by
  rw [velocity_at]
  field_simp
  ring

lemma velocity_at_pos (n : Nat) (d : ℚ) (k : Nat) (h2 : 2 ≤ n) (hd : 0 < d)
    (hk : k < n) : 0 < velocity_at n d k := by
  have hn : (0 : ℚ) < n := by
    have : 0 < n := by omega
    exact_mod_cast this
  rw [velocity_at_eq n d k (ne_of_gt hn)]
  have hnk : (0 : ℚ) < (n : ℚ) - k := by
    have : (k : ℚ) < n := by exact_mod_cast hk
    linarith
  exact mul_pos (initial_velocity_pos n d h2 hd) (div_pos hnk hn)

lemma inertial_scroll_eq (target : Int) (d : ℚ) (h2 : 2 ≤ target.natAbs) (hd : 0 < d) :
    inertial_scroll target d =
      ((List.range target.natAbs).map fun k =>
        scroll_once (if 0 < target then 1 else -1) (inertial_hold target.natAbs d k), none) := by
  have hnQ : (0 : ℚ) < (target.natAbs : ℚ) := by
    have : 0 < target.natAbs := by omega
    exact_mod_cast this
  have hne1 : ((target.natAbs : ℚ) - 1) * d ≠ 0 := by
    have h2Q : (2 : ℚ) ≤ (target.natAbs : ℚ) := by exact_mod_cast h2
    have : (0 : ℚ) < ((target.natAbs : ℚ) - 1) * d := mul_pos (by linarith) hd
    exact ne_of_gt this
  simp only [inertial_scroll, if_neg hne1, if_neg (ne_of_gt hnQ)]
  rw [inertial_loop_eq]
  · simp only [inertial_hold, velocity_at, Nat.zero_add, zero_add]
  · intro k hk
    exact ne_of_gt (velocity_at_pos target.natAbs d k h2 hd hk)

lemma list_range_map_sum (f : Nat → ℚ) (n : Nat) :
    ((List.range n).map f).sum = ∑ k ∈ Finset.range n, f k := by
  induction n with
  | zero => simp
  | succ m ih =>
    rw [List.range_succ, List.map_append, List.sum_append, Finset.sum_range_succ, ih]
    simp

lemma sum_range_inv_shift (m : Nat) :
    (∑ j ∈ Finset.range m, (1 : ℚ) / ((j : ℚ) + 2)) = inv_sum (m + 1) := by
  induction m with
  | zero => simp [inv_sum]
  | succ k ih =>
    rw [Finset.sum_range_succ, ih]
    simp only [inv_sum]
    rw [if_pos (by omega : 2 ≤ k + 1 + 1)]
    push_cast
    ring

lemma sum_reflect2 (m : Nat) :
    (∑ k ∈ Finset.range (m + 1), (1 : ℚ) / ((m : ℚ) + 2 - k)) = inv_sum (m + 2) := by
  rw [← Finset.sum_range_reflect (fun j => (1 : ℚ) / ((m : ℚ) + 2 - j)) (m + 1)]
  have hcongr : ∀ j ∈ Finset.range (m + 1),
      (1 : ℚ) / ((m : ℚ) + 2 - ((m + 1 - 1 - j : ℕ) : ℚ)) = 1 / ((j : ℚ) + 2) := by
    intro j hj
    have hj1 : j ≤ m := Nat.lt_succ_iff.mp (Finset.mem_range.mp hj)
    have h1 : m + 1 - 1 - j = m - j := by omega
    rw [h1]
    have h2 : ((m - j : ℕ) : ℚ) = (m : ℚ) - j := by
      push_cast [hj1]
      ring
    rw [h2]
    congr 1
    ring
  rw [Finset.sum_congr rfl hcongr]
  exact sum_range_inv_shift (m + 1)

lemma hold_sum (n : Nat) (d : ℚ) (h2 : 2 ≤ n) (hd : 0 < d) :
    (∑ k ∈ Finset.range n, inertial_hold n d k) = ((n : ℚ) - 1) * d := by
  obtain ⟨m, rfl⟩ : ∃ m, n = m + 2 := ⟨n - 2, by omega⟩
  have hv1 : initial_velocity (m + 2) d ≠ 0 :=
    ne_of_gt (initial_velocity_pos (m + 2) d (by omega) hd)
  have hnQ : ((m + 2 : ℕ) : ℚ) ≠ 0 := by
    push_cast
    positivity
  rw [Finset.sum_range_succ]
  have hlast : inertial_hold (m + 2) d (m + 1) = 0 := by
    rw [inertial_hold, if_neg (by omega), mul_zero]
  rw [hlast, add_zero]
  have hterm : ∀ k ∈ Finset.range (m + 1), inertial_hold (m + 2) d k =
      (1 / ((m : ℚ) + 2 - k)) * (((m : ℚ) + 2) / initial_velocity (m + 2) d) := by
    intro k hk
    have hk1 : k < m + 1 := Finset.mem_range.mp hk
    rw [inertial_hold, if_pos (by omega), mul_one, velocity_at_eq (m + 2) d k hnQ]
    push_cast
    simp only [one_div, mul_inv, inv_div, div_eq_mul_inv, inv_inv]
    ring
  rw [Finset.sum_congr rfl hterm, ← Finset.sum_mul, sum_reflect2 m]
  rw [initial_velocity]
  have hs : inv_sum (m + 2) ≠ 0 := ne_of_gt (inv_sum_pos (m + 2) (by omega))
  have hd0 : d ≠ 0 := ne_of_gt hd
  have hm1 : ((m + 2 : ℕ) : ℚ) - 1 ≠ 0 := by
    have hm0 : (0 : ℚ) ≤ (m : ℚ) := by positivity
    push_cast
    intro hc
    nlinarith
  push_cast at hm1 ⊢
  field_simp
  ring

lemma hold_lt (n : Nat) (d : ℚ) (h2 : 2 ≤ n) (hd : 0 < d) (i j : Nat)
    (hij : i < j) (hj : j < n - 1) :
    inertial_hold n d i < inertial_hold n d j := by
  have hi : i < n - 1 := by omega
  rw [inertial_hold, inertial_hold, if_pos hi, if_pos hj, mul_one, mul_one]
  have hvj : 0 < velocity_at n d j := velocity_at_pos n d j h2 hd (by omega)
  have hvv : velocity_at n d j < velocity_at n d i := by
    rw [velocity_at, velocity_at]
    have hn : (0 : ℚ) < n := by
      have : 0 < n := by omega
      exact_mod_cast this
    have hdv : 0 < initial_velocity n d / n :=
      div_pos (initial_velocity_pos n d h2 hd) hn
    have hijQ : (i : ℚ) < j := by exact_mod_cast hij
    have := mul_lt_mul_of_pos_right hijQ hdv
    linarith
  exact one_div_lt_one_div_of_lt hvj hvv

/-- C2. With target magnitude 1, `inertial_scroll` raises
ZeroDivisionError — the initial-velocity denominator `(n_lines - 1) *
duration` is zero — and sends no command, for every duration. -/
theorem c2_inertial_s1_raises (d : ℚ) :
    inertial_scroll 1 d = ([], some "ZeroDivisionError") := by
  norm_num [inertial_scroll]

/-- C6 counterexample. At S = 5, tick duration 1, the first two hold
durations are 48/77 and 60/77: the held durations grow, so they are not
strictly decreasing. -/
theorem c6_counterexample :
    ((inertial_scroll 5 1).1.map Event.hold).take 2 = [48/77, 60/77] ∧
    (48 / 77 : ℚ) < 60 / 77 := by
  constructor
  · norm_num [inertial_scroll, inertial_loop, initial_velocity, inv_sum, scroll_once]
  · norm_num

/-- C6 amended. For S ≥ 2 and positive duration the inertial run
raises no error and sends one single-line step per iteration; the hold
durations are strictly increasing (not decreasing) over the first S - 1
steps, their total equals (S - 1) * tick_duration exactly over rational
arithmetic, and the last step's hold duration is 0. -/
theorem c6_inertial_schedule (target : Int) (d : ℚ)
    (h2 : 2 ≤ target.natAbs) (hd : 0 < d) :
    inertial_scroll target d =
      ((List.range target.natAbs).map fun k =>
        scroll_once (if 0 < target then 1 else -1) (inertial_hold target.natAbs d k), none) ∧
    ((inertial_scroll target d).1.map Event.hold).sum = ((target.natAbs : ℚ) - 1) * d ∧
    (∀ i j, i < j → j < target.natAbs - 1 →
      inertial_hold target.natAbs d i < inertial_hold target.natAbs d j) ∧
    inertial_hold target.natAbs d (target.natAbs - 1) = 0 := by
  refine ⟨inertial_scroll_eq target d h2 hd, ?_, ?_, ?_⟩
  · rw [inertial_scroll_eq target d h2 hd]
    have hmap : ((List.range target.natAbs).map fun k =>
        scroll_once (if 0 < target then 1 else -1)
          (inertial_hold target.natAbs d k)).map Event.hold =
        (List.range target.natAbs).map fun k => inertial_hold target.natAbs d k := by
      rw [List.map_map]
      rfl
    rw [hmap, list_range_map_sum, hold_sum target.natAbs d h2 hd]
  · intro i j hij hj
    exact hold_lt target.natAbs d h2 hd i j hij hj
  · rw [inertial_hold, if_neg (by omega), mul_zero]

/-- Witness for C6 at target 5, duration 1: the holds sum to 4 and the
first hold is shorter than the second. -/
theorem c6_inertial_schedule_witness :
    ((inertial_scroll 5 1).1.map Event.hold).sum = (((5 : Int).natAbs : ℚ) - 1) * 1 ∧
    inertial_hold (5 : Int).natAbs 1 0 < inertial_hold (5 : Int).natAbs 1 1 := by
  have h := c6_inertial_schedule 5 1 (by decide) (by norm_num)
  exact ⟨h.2.1, h.2.2.1 0 1 (by omega) (by decide)⟩

/-- C7. For S ≥ 2 and positive duration, the velocity in force at each
paced step (0-indexed 0 .. S-2) is strictly positive; at the last paced
step it equals `initial_velocity * 2 / S`; and the run raises no division
error. -/
theorem c7_velocity_positive (target : Int) (d : ℚ)
    (h2 : 2 ≤ target.natAbs) (hd : 0 < d) :
    (∀ k, k ≤ target.natAbs - 2 → 0 < velocity_at target.natAbs d k) ∧
    velocity_at target.natAbs d (target.natAbs - 2) =
      initial_velocity target.natAbs d * 2 / (target.natAbs : ℚ) ∧
    (inertial_scroll target d).2 = none := by
  refine ⟨?_, ?_, ?_⟩
  · intro k hk
    exact velocity_at_pos target.natAbs d k h2 hd (by omega)
  · obtain ⟨m, hm⟩ : ∃ m, target.natAbs = m + 2 := ⟨target.natAbs - 2, by omega⟩
    rw [hm]
    have h1 : m + 2 - 2 = m := by omega
    rw [h1, velocity_at]
    have hn : ((m + 2 : ℕ) : ℚ) ≠ 0 := by
      push_cast
      positivity
    field_simp
    ring
  · rw [inertial_scroll_eq target d h2 hd]

/-- Witness for C7 at target 5, duration 1. -/
theorem c7_velocity_positive_witness :
    0 < velocity_at (5 : Int).natAbs 1 0 ∧
    velocity_at (5 : Int).natAbs 1 ((5 : Int).natAbs - 2) =
      initial_velocity (5 : Int).natAbs 1 * 2 / ((5 : Int).natAbs : ℚ) ∧
    (inertial_scroll 5 1).2 = none := by
  have h := c7_velocity_positive 5 1 (by decide) (by norm_num)
  exact ⟨h.1 0 (by decide), h.2.1, h.2.2⟩

/-! ### Dispatcher claims -/

/-- C3 counterexample. With one screen line product 9/5 (count 1,
amount 9/10, window height 4) and ample room, the code truncates to 1
while rounding to the nearest integer gives 2. -/
theorem c3_counterexample :
    n_lines_of ⟨1, 100, 4, 1⟩ (9/10) = 1 ∧ n_lines_spec ⟨1, 100, 4, 1⟩ (9/10) = 2 := by
  have hprod : scroll_product ⟨1, 100, 4, 1⟩ (9/10) = 9/5 := by
    rw [scroll_product, abs_of_pos (by norm_num : (0:ℚ) < 9/10)]
    norm_num
  have hms : maxscroll_of ⟨1, 100, 4, 1⟩ (9/10) = 99 := by norm_num [maxscroll_of]
  have hfloor : (⌊(9/5 : ℚ)⌋ : Int) = 1 := by norm_num
  constructor
  · have hfl : pyInt (9/5 : ℚ) = 1 := by
      rw [pyInt, if_pos (by norm_num : (0:ℚ) ≤ 9/5), hfloor]
    rw [n_lines_of, hprod, hfl, hms]
    decide
  · have hrd : pyRound (9/5 : ℚ) = 2 := by
      rw [pyRound, hfloor]
      norm_num
    rw [n_lines_spec, hprod, hrd, hms]
    decide

/-- C3 amended. The planned line total uses truncation toward zero
(Python `int()`), not rounding to the nearest integer; in the spec's own
instance — amount 1, window height 42, repeat count 1 — the two agree and
the result is `min 40 maxscroll`. -/
theorem c3_n_lines_trunc (env : Env) (hwh : env.window_height = 42)
    (hc : env.count_raw ≤ 1) :
    n_lines_of env 1 = min 40 (maxscroll_of env 1) := by
  have hmax : max 1 env.count_raw = 1 := by omega
  rw [n_lines_of, scroll_product, hwh, hmax]
  norm_num [pyInt]

/-- Witness for C3 (amended) at cursor 5, 1000 buffer lines. -/
theorem c3_n_lines_trunc_witness :
    n_lines_of ⟨5, 1000, 42, 1⟩ 1 = min 40 (maxscroll_of ⟨5, 1000, 42, 1⟩ 1) :=
  c3_n_lines_trunc ⟨5, 1000, 42, 1⟩ rfl (by norm_num)

/-- C4 counterexample. A zero speed with a sub-millisecond tick selects
the fixed path, which then sends four steps of magnitude 0 — not
`max(speed, 1) = 1`; the key text it builds is "0k0vk". -/
theorem c4_counterexample :
    (main_run ⟨1, 10, 6, 1⟩ ⟨1, 1/2, 0⟩).1.map Event.step = [0, 0, 0, 0] ∧
    scroll_keys 0 = "0k0vk" ∧
    ¬ ∀ e ∈ (main_run ⟨1, 10, 6, 1⟩ ⟨1, 1/2, 0⟩).1, 1 ≤ e.step.natAbs := by
  have hms : maxscroll_of ⟨1, 10, 6, 1⟩ (1 : ℚ) = 9 := by norm_num [maxscroll_of]
  have hnl : n_lines_of ⟨1, 10, 6, 1⟩ (1 : ℚ) = 4 := by
    have hprod : scroll_product ⟨1, 10, 6, 1⟩ (1 : ℚ) = 4 := by
      rw [scroll_product, abs_of_pos (by norm_num : (0:ℚ) < 1)]
      norm_num
    have hfl : pyInt (4 : ℚ) = 4 := by
      rw [pyInt, if_pos (by norm_num : (0:ℚ) ≤ 4)]
      norm_num
    rw [n_lines_of, hprod, hfl, hms]
    decide
  have hfe : fixed_events 4 1 0 ((1:ℚ)/2000) =
      [⟨0, 1/2000⟩, ⟨0, 1/2000⟩, ⟨0, 1/2000⟩, ⟨0, 0⟩] := by
    have ht : Int.toNat (Int.fdiv 4 (max 0 1)) = 4 := by decide
    have hr : List.range 4 = [0, 1, 2, 3] := by decide
    simp only [fixed_events, ht, hr, List.map_cons, List.map_nil, scroll_once]
    norm_num
  have hev : (main_run ⟨1, 10, 6, 1⟩ ⟨1, 1/2, 0⟩).1 =
      [⟨0, 1/2000⟩, ⟨0, 1/2000⟩, ⟨0, 1/2000⟩, ⟨0, 0⟩] := by
    rw [main_run]
    norm_num [hms, hnl]
    exact hfe
  refine ⟨by rw [hev]; rfl, by rfl, ?_⟩
  intro h
  have h0 := h ⟨0, 0⟩ (by rw [hev]; simp)
  simp at h0

/-- C4 amended. The tick count divides by `max(speed, 1)`, but each
step command's magnitude is `speed` itself: when `speed ≥ 1` that equals
`max(speed, 1) ≥ 1`, while the `speed = 0` fixed-path case sends steps of
magnitude 0. -/
theorem c4_fixed_magnitude (n sign speed : Int) (d : ℚ)
    (hs : 1 ≤ speed) (hsign : sign = 1 ∨ sign = -1) :
    ∀ e ∈ fixed_events n sign speed d,
      (e.step.natAbs : Int) = max speed 1 ∧ 1 ≤ e.step.natAbs := by
  intro e he
  simp only [fixed_events, List.mem_map] at he
  obtain ⟨i, _, rfl⟩ := he
  have hstep : (sign * speed).natAbs = speed.natAbs := by
    rcases hsign with h | h <;> subst h <;> simp
  constructor
  · show ((sign * speed).natAbs : Int) = max speed 1
    rw [hstep, Int.natAbs_of_nonneg (by omega), max_eq_left hs]
  · show 1 ≤ (sign * speed).natAbs
    rw [hstep]
    omega

/-- Witness for C4 (amended): a tick of `fixed_events 10 1 3 0`. -/
theorem c4_fixed_magnitude_witness :
    ((Event.mk 3 0).step.natAbs : Int) = max 3 1 ∧ 1 ≤ (Event.mk 3 0).step.natAbs := by
  refine c4_fixed_magnitude 10 1 3 0 (by norm_num) (Or.inl rfl) ⟨3, 0⟩ ?_
  have h : fixed_events 10 1 3 0 = [⟨3, 0⟩, ⟨3, 0⟩, ⟨3, 0⟩] := by
    have ht : Int.toNat (Int.fdiv 10 (max 3 1)) = 3 := by decide
    have hr : List.range 3 = [0, 1, 2] := by decide
    simp only [fixed_events, ht, hr, List.map_cons, List.map_nil, scroll_once]
    norm_num
  rw [h]
  simp

/-- C5. With nonnegative total `n` and `speed ≥ 1`, the fixed path
sends exactly `n // speed` steps, each of magnitude `speed`, and the total
`speed * (n // speed)` never exceeds `n` (the remainder is dropped, no
partial extra tick). -/
theorem c5_fixed_tick_count (n sign speed : Int) (d : ℚ)
    (_hn : 0 ≤ n) (hs : 1 ≤ speed) (hsign : sign = 1 ∨ sign = -1) :
    (fixed_events n sign speed d).length = (Int.fdiv n speed).toNat ∧
    (∀ e ∈ fixed_events n sign speed d,
      e.step = sign * speed ∧ (e.step.natAbs : Int) = speed) ∧
    speed * Int.fdiv n speed ≤ n := by
  have hmax : max speed 1 = speed := max_eq_left hs
  refine ⟨?_, ?_, ?_⟩
  · simp only [fixed_events, hmax, List.length_map, List.length_range]
  · intro e he
    simp only [fixed_events, List.mem_map] at he
    obtain ⟨i, _, rfl⟩ := he
    refine ⟨rfl, ?_⟩
    have hstep : (sign * speed).natAbs = speed.natAbs := by
      rcases hsign with h | h <;> subst h <;> simp
    show ((sign * speed).natAbs : Int) = speed
    rw [hstep, Int.natAbs_of_nonneg (by omega)]
  · rw [Int.fdiv_eq_ediv n (by omega)]
    have h1 := Int.ediv_add_emod n speed
    have h2 := Int.emod_nonneg n (by omega : speed ≠ 0)
    linarith

/-- Witness for C5 at n = 10, speed = 3: exactly three ticks, and 9 ≤ 10. -/
theorem c5_fixed_tick_count_witness :
    ((fixed_events 10 1 3 0).length = (Int.fdiv 10 3).toNat ∧
      3 * Int.fdiv 10 3 ≤ 10) ∧
    (Int.fdiv 10 3).toNat = 3 := by
  have h := c5_fixed_tick_count 10 1 3 0 (by norm_num) (by norm_num) (Or.inl rfl)
  exact ⟨⟨h.1, h.2.2⟩, by decide⟩

/-- C8. When `maxscroll` is zero, `main` returns before contacting the
session: no command is sent and no error is raised. -/
theorem c8_maxscroll_zero (env : Env) (args : Args)
    (h : maxscroll_of env args.amount = 0) :
    main_run env args = ([], none) := by
  simp [main_run, h]

/-- Witness for C8: cursor on the last of 3 lines, scrolling down. -/
theorem c8_maxscroll_zero_witness :
    main_run ⟨3, 3, 10, 1⟩ ⟨1, 50, 0⟩ = ([], none) :=
  c8_maxscroll_zero ⟨3, 3, 10, 1⟩ ⟨1, 50, 0⟩ (by norm_num [maxscroll_of])

/-- C10. With `speed = 0`, tick duration at least one millisecond,
positive `maxscroll` and a line product that truncates to 0, `main` calls
the inertial path with target 0, and `d_velocity = velocity / n_lines`
divides by zero: a ZeroDivisionError is raised before any command is
sent. -/
theorem c10_zero_target_div_error (env : Env) (args : Args)
    (hspeed : args.speed = 0) (hdur : 1 ≤ args.duration_ms)
    (hms : 0 < maxscroll_of env args.amount)
    (hprod : pyInt (scroll_product env args.amount) = 0) :
    main_run env args = ([], some "ZeroDivisionError") := by
  have hnl : n_lines_of env args.amount = 0 := by
    rw [n_lines_of, hprod]
    exact min_eq_left (le_of_lt hms)
  have hdpos : (0 : ℚ) < args.duration_ms / 1000 := by
    have h1 : (0 : ℚ) < args.duration_ms := by linarith
    exact div_pos h1 (by norm_num)
  have hcond : ¬ (0 < args.speed ∨ args.duration_ms / 1000 < 1 / 1000) := by
    push_neg
    constructor
    · omega
    · gcongr
  rw [main_run]
  rw [if_neg (ne_of_gt hms), if_neg hcond, hnl, mul_zero]
  have hA : (((0 : Int).natAbs : ℚ) - 1) * (args.duration_ms / 1000) ≠ 0 := by
    intro hc
    rw [Int.natAbs_zero, Nat.cast_zero, zero_sub, neg_one_mul, neg_eq_zero] at hc
    exact (ne_of_gt hdpos) hc
  have hB : (((0 : Int).natAbs : ℚ)) = 0 := by simp
  rw [inertial_scroll]
  rw [if_neg hA, if_pos hB]

/-- Witness for C10: a tenth-of-a-screen request two lines tall. -/
theorem c10_zero_target_div_error_witness :
    main_run ⟨1, 10, 4, 1⟩ ⟨1/10, 10, 0⟩ = ([], some "ZeroDivisionError") := by
  refine c10_zero_target_div_error ⟨1, 10, 4, 1⟩ ⟨1/10, 10, 0⟩ rfl (by norm_num)
    (by norm_num [maxscroll_of]) ?_
  have hprod : scroll_product ⟨1, 10, 4, 1⟩ (1/10 : ℚ) = 1/5 := by
    rw [scroll_product, abs_of_pos (by norm_num : (0:ℚ) < 1/10)]
    norm_num
  rw [hprod, pyInt, if_pos (by norm_num : (0:ℚ) ≤ 1/5)]
  norm_num

end SmoothScroll
